import Mathlib

/-!
Shallow embedding of the jira-dev-metrics core (src/report.py, src/dateutils.py).

Timestamps are modelled as integers (an instant on a totally ordered axis);
`datetime_compare a b` in the source returns the signed difference `a - b` in
seconds, which we model as integer subtraction.  Python dicts are modelled as
association lists with insertion-order semantics (`dictLookup`, `dictSet`);
all dicts built by the source have pairwise-distinct keys.

For the error-handling claims the timestamp type is `Option ℤ`: `none` stands
for a change-history timestamp string that `strptime` cannot parse, and the
functions that parse lazily run in `Except Unit`.
-/

namespace JiraMetrics

/-- Python dict lookup on an association list (first binding wins; the source
only ever builds dicts with distinct keys). -/
def dictLookup {α β : Type} [DecidableEq α] : List (α × β) → α → Option β
  | [], _ => none
  | (k, v) :: rest, q => if k = q then some v else dictLookup rest q

/-- Python dict assignment `d[k] = v`: updates in place if the key is present
(keeping its position), otherwise appends, matching insertion-order dicts. -/
def dictSet {α β : Type} [DecidableEq α] : List (α × β) → α → β → List (α × β)
  | [], k, v => [(k, v)]
  | (k', v') :: rest, k, v =>
    if k' = k then (k, v) :: rest else (k', v') :: dictSet rest k v

/-- A transition record `{"date": ..., "from": ..., "to": ...}` as built by
`build_changelog`.  `δ` is the timestamp type (`ℤ` once parsed, `Option ℤ`
when a raw string may be malformed).  `from`/`to` are nullable ids. -/
structure Tr (δ : Type) where
  date : δ
  fromVal : Option String
  toVal : Option String
deriving Repr, DecidableEq

instance {δ : Type} [Inhabited δ] : Inhabited (Tr δ) := ⟨⟨default, none, none⟩⟩

/-- One issue's entry in the changelog dict: `{"statuses": ..., "assignees": ...}`. -/
structure Fields (δ : Type) where
  statuses : List (Tr δ)
  assignees : List (Tr δ)
deriving Repr, DecidableEq

/-- The loop of `find_at_time` (report.py:15-20): walk the items, remembering
the last item whose date is before (or, when inclusive, at) the query date,
and stop at the first item that is not. -/
def findLoop (date : ℤ) (inclusive : Bool) (previous : Option (Tr ℤ)) :
    List (Tr ℤ) → Option (Tr ℤ)
  | [] => previous
  | item :: rest =>
    if item.date - date < 0 ∨ (inclusive = true ∧ item.date - date = 0) then
      findLoop date inclusive (some item) rest
    else previous

/-- `find_at_time` (report.py:11-22) on the selected timeline
`changelog[issue_id][timeline_key]` (the dict selection is plain lookup and is
elided here; `items` is that timeline).  `return previous or items[0]` falls
back to the first item; on an empty timeline the source raises (modelled as
`none`). -/
def find_at_time (items : List (Tr ℤ)) (date : ℤ) (inclusive : Bool) : Option (Tr ℤ) :=
  match findLoop date inclusive none items with
  | some p => some p
  | none => items.head?

/-- One element of `history["items"]` with the fields the core reads. -/
structure Item where
  field : String
  fieldtype : String
  fromVal : Option String
  toVal : Option String
deriving Repr, DecidableEq

/-- One element of `issue["changelog"]["histories"]`. -/
structure History (δ : Type) where
  created : δ
  items : List Item
deriving Repr, DecidableEq

/-- The projection of one raw issue that `build_changelog` reads:
`issue["id"]`, `issue["fields"]["created"]`, `issue["fields"]["status"]["id"]`,
`issue["fields"]["assignee"]["accountId"]` (null when unassigned), and the
raw change histories. -/
structure Issue (δ : Type) where
  id : String
  created : δ
  statusId : String
  assigneeId : Option String
  histories : List (History δ)
deriving Repr, DecidableEq

/-- The per-field event capture of `build_changelog` (report.py:88-105): for
each history, each item tagged with this field name and fieldtype "jira"
yields `{"date": history.created, "from": item.from, "to": item.to}`, in
input order.  The source fills both field lists in one pass with an
`if`/`elif`; the two conditions are mutually exclusive on the field name, so
one filtered pass per field is the same list. -/
def fieldChanges {δ : Type} (fname : String) (iss : Issue δ) : List (Tr δ) :=
  (iss.histories.map (fun h =>
    h.items.filterMap (fun it =>
      if it.field = fname ∧ it.fieldtype = "jira" then
        some ⟨h.created, it.fromVal, it.toVal⟩
      else none))).flatten

def statusChanges {δ : Type} (iss : Issue δ) : List (Tr δ) := fieldChanges "status" iss

def assigneeChanges {δ : Type} (iss : Issue δ) : List (Tr δ) := fieldChanges "assignee" iss

/-- `initial_status` (report.py:107-115): the synthetic entry at the issue's
creation date; its `to` is `status_changes[-1]["from"]` (the oldest captured
change, the raw list being newest-first) when changes exist, else the issue's
current status id. -/
def initialStatus {δ : Type} (iss : Issue δ) : Tr δ :=
  ⟨iss.created, none,
    match (statusChanges iss).getLast? with
    | some e => e.fromVal
    | none => some iss.statusId⟩

/-- `initial_assignee` (report.py:117-127); the current assignee is already
nullable (`None` when unassigned). -/
def initialAssignee {δ : Type} (iss : Issue δ) : Tr δ :=
  ⟨iss.created, none,
    match (assigneeChanges iss).getLast? with
    | some e => e.fromVal
    | none => iss.assigneeId⟩

/-- `(status_changes + [initial_status])[::-1]` (report.py:130). -/
def buildStatuses {δ : Type} (iss : Issue δ) : List (Tr δ) :=
  (statusChanges iss ++ [initialStatus iss]).reverse

/-- `(assignee_changes + [initial_assignee])[::-1]` (report.py:131). -/
def buildAssignees {δ : Type} (iss : Issue δ) : List (Tr δ) :=
  (assigneeChanges iss ++ [initialAssignee iss]).reverse

/-- `build_changelog` (report.py:65-134): `changelog[issue["id"]] = {...}`.
It copies timestamps without parsing them, so it is polymorphic in `δ`. -/
def build_changelog {δ : Type} (resp : List (Issue δ)) : List (String × Fields δ) :=
  resp.foldl (fun acc iss => dictSet acc iss.id ⟨buildStatuses iss, buildAssignees iss⟩) []

/-- `target_status_idx` (report.py:150-154): the indices `i` (counting from
`k`) of the status entries whose `from` equals the target status. -/
def targetIdxs {δ : Type} (target : Option String) : List (Tr δ) → ℕ → List ℕ
  | [], _ => []
  | s :: rest, k =>
    if s.fromVal = target then k :: targetIdxs target rest (k + 1)
    else targetIdxs target rest (k + 1)

/-- Python `statuses[i - 1]` for `i` produced by `enumerate`: for `i ≥ 1` the
previous element, for `i = 0` the index is `-1`, which wraps around to the
LAST element of the list.  (The default is unreachable: `i` is always in
range and the list is non-empty when an index exists.) -/
def pyPrev {δ : Type} [Inhabited δ] (l : List (Tr δ)) (i : ℕ) : Tr δ :=
  if i = 0 then (l.getLast?).getD default else (l.get? (i - 1)).getD default

/-- Python `statuses[i]` for an in-range `i` from `enumerate`. -/
def pyAt {δ : Type} [Inhabited δ] (l : List (Tr δ)) (i : ℕ) : Tr δ :=
  (l.get? i).getD default

/-- `per_issue[issue_id].setdefault(assignee, 0)` (report.py:169). -/
def setdefault0 (acc : List (Option String × ℤ)) (k : Option String) :
    List (Option String × ℤ) :=
  match dictLookup acc k with
  | some _ => acc
  | none => acc ++ [(k, 0)]

/-- `per_issue[issue_id][assignee] += d` (report.py:172,177); the key is
present (ensured by `setdefault0`) and keys are distinct. -/
def addVal (acc : List (Option String × ℤ)) (k : Option String) (d : ℤ) :
    List (Option String × ℤ) :=
  acc.map (fun p => if p.1 = k then (p.1, p.2 + d) else p)

/-- The `while assignee_idx < len(...)` sweep of one window (report.py:161-178),
with the cursor represented by the remaining suffix of the assignee timeline,
which is returned so the next window resumes from it.  `start` is the mutable
local of the source; `endd` is `end`. -/
def sweep (start endd : ℤ) (acc : List (Option String × ℤ)) :
    List (Tr ℤ) → List (Option String × ℤ) × List (Tr ℤ)
  | [] => (acc, [])
  | a :: rest =>
    if a.date < start then sweep start endd acc rest
    else
      if a.date < endd then
        sweep a.date endd (addVal (setdefault0 acc a.fromVal) a.fromVal (a.date - start)) rest
      else (addVal (setdefault0 acc a.fromVal) a.fromVal (endd - start), a :: rest)

/-- The body of `calculate_workload` for one issue (report.py:150-178):
fold the windows (in `target_status_idx` order) over the shared assignee
cursor, with `start = statuses[i-1].date` and `end = statuses[i].date`. -/
def calcIssue (f : Fields ℤ) (target : Option String) : List (Option String × ℤ) :=
  ((targetIdxs target f.statuses 0).foldl
    (fun st i => sweep (pyPrev f.statuses i).date (pyAt f.statuses i).date st.1 st.2)
    ([], f.assignees)).1

/-- `calculate_workload` (report.py:137-180).  An issue appears in the result
exactly when the sweep touched `per_issue.setdefault(issue_id, {})` at least
once, i.e. when its accumulated inner dict is non-empty. -/
def calculate_workload (changelog : List (String × Fields ℤ)) (target : Option String) :
    List (String × List (Option String × ℤ)) :=
  changelog.foldl
    (fun per p =>
      if calcIssue p.2 target = [] then per else dictSet per p.1 (calcIssue p.2 target))
    []

/-- `max(assignee_scores, key=assignee_scores.get)` paired with its score
(report.py:188-189): the first pair attaining the maximal value, since Python's
`max` keeps the earliest maximal element.  The `[]` case is unreachable (the
source checks `if assignee_scores:` first). -/
def leadOf : List (Option String × ℤ) → Option String × ℤ
  | [] => (none, 0)
  | x :: xs => xs.foldl (fun best y => if best.2 < y.2 then y else best) x

/-- `per_leads.setdefault(lead, {}); per_leads[lead][issue] = score`
(report.py:191-192). -/
def setLead : List (Option String × List (String × ℤ)) → Option String → String → ℤ →
    List (Option String × List (String × ℤ))
  | [], l, i, v => [(l, [(i, v)])]
  | (l', m) :: rest, l, i, v =>
    if l' = l then (l', dictSet m i v) :: rest else (l', m) :: setLead rest l i v

/-- `group_by_lead` (report.py:183-194). -/
def group_by_lead (workloads : List (String × List (Option String × ℤ))) :
    List (Option String × List (String × ℤ)) :=
  workloads.foldl
    (fun per p =>
      if p.2 = [] then per
      else setLead per (leadOf p.2).1 p.1 (leadOf p.2).2)
    []

/-- All `(lead, score)` entries recorded for a given issue anywhere in a
LeadGroup, in lead order: used to state "exactly one entry per issue". -/
def findEntries : List (Option String × List (String × ℤ)) → String →
    List (Option String × ℤ)
  | [], _ => []
  | (l, m) :: rest, i =>
    match dictLookup m i with
    | some v => (l, v) :: findEntries rest i
    | none => findEntries rest i

/-- `strptime` (dateutils.py:4-5) on a possibly malformed timestamp: `none`
models a string that cannot be parsed, on which the source raises. -/
def strptimeE : Option ℤ → Except Unit ℤ
  | some n => .ok n
  | none => .error ()

/-- The window sweep with lazy timestamp parsing, as the source performs it:
each visited assignee entry's date goes through `strptime`. -/
def sweepE (start endd : ℤ) (acc : List (Option String × ℤ)) :
    List (Tr (Option ℤ)) → Except Unit (List (Option String × ℤ) × List (Tr (Option ℤ)))
  | [] => .ok (acc, [])
  | a :: rest => do
    let d ← strptimeE a.date
    if d < start then sweepE start endd acc rest
    else
      let acc1 := setdefault0 acc a.fromVal
      if d < endd then sweepE d endd (addVal acc1 a.fromVal (d - start)) rest
      else .ok (addVal acc1 a.fromVal (endd - start), a :: rest)

/-- The window loop of `calculate_workload` with parsing: the two window
boundaries go through `strptime` (report.py:158-159), then the sweep runs. -/
def runWindowsE (statuses : List (Tr (Option ℤ))) :
    List ℕ → List (Option String × ℤ) × List (Tr (Option ℤ)) →
    Except Unit (List (Option String × ℤ) × List (Tr (Option ℤ)))
  | [], st => .ok st
  | i :: rest, st => do
    let start ← strptimeE (pyPrev statuses i).date
    let endd ← strptimeE (pyAt statuses i).date
    let st' ← sweepE start endd st.1 st.2
    runWindowsE statuses rest st'

/-- One issue of `calculate_workload` with parsing. -/
def calcIssueE (f : Fields (Option ℤ)) (target : Option String) :
    Except Unit (List (Option String × ℤ)) := do
  let st ← runWindowsE f.statuses (targetIdxs target f.statuses 0) ([], f.assignees)
  pure st.1

/-- `calculate_workload` with parsing; a raised exception aborts the whole
computation, modelled by folding in `Except`. -/
def calculate_workloadE (changelog : List (String × Fields (Option ℤ)))
    (target : Option String) :
    Except Unit (List (String × List (Option String × ℤ))) :=
  changelog.foldl
    (fun eper p => do
      let per ← eper
      let a ← calcIssueE p.2 target
      if a = [] then pure per else pure (dictSet per p.1 a))
    (.ok [])

/-- Whether the raw input contains a change-history timestamp that cannot be
parsed. -/
def hasMalformed (resp : List (Issue (Option ℤ))) : Bool :=
  resp.any (fun iss => iss.histories.any (fun h => h.created = none))

/-- The core computation of the spec: `build_changelog` followed by
`calculate_workload`, over raw timestamps that may be malformed. -/
def coreE (resp : List (Issue (Option ℤ))) (target : Option String) :
    Except Unit (List (String × List (Option String × ℤ))) :=
  calculate_workloadE (build_changelog resp) target

/-- Modelled from the spec (section 4.1, step 3), for comparison with the
source's `buildStatuses`: "Prepend the synthetic entry to the filtered
(reverse-chronological) list, then reverse the whole sequence". -/
def specStatuses {δ : Type} (iss : Issue δ) : List (Tr δ) :=
  (initialStatus iss :: statusChanges iss).reverse

/-- Chronological (non-decreasing dates) ordering of a timeline. -/
abbrev Chron {δ : Type} [LinearOrder δ] (l : List (Tr δ)) : Prop :=
  l.Pairwise (fun a b => a.date ≤ b.date)

/-- The Timeline invariant of the spec (section 3): non-empty (the head
exists), non-decreasing by timestamp, first element has `from = null`. -/
abbrev TimelineOK (l : List (Tr ℤ)) : Prop :=
  Chron l ∧ l.head?.map Tr.fromVal = some none

/-- Scenario A of the spec with t0 = 0, t1 = 10, t1h = 15, t2 = 20,
S0 = "S0", TARGET = "T", A = "A", B = "B". -/
def scenarioA : Fields ℤ :=
  ⟨[⟨0, none, some "S0"⟩, ⟨10, some "S0", some "T"⟩, ⟨20, some "T", some "S0"⟩],
   [⟨0, none, some "A"⟩, ⟨15, some "A", some "B"⟩]⟩

/-- An issue created at 0 assigned to A throughout, in target status over
[10, 20): its assignee timeline is exhausted before the window ends. -/
def lostTail : Fields ℤ :=
  ⟨[⟨0, none, some "S0"⟩, ⟨10, some "S0", some "T"⟩, ⟨20, some "T", some "S0"⟩],
   [⟨0, none, some "A"⟩]⟩

/-- Scenario B of the spec: the issue entered the target status at 10 and
never left it. -/
def scenarioB : Fields ℤ :=
  ⟨[⟨0, none, some "S0"⟩, ⟨10, some "S0", some "T"⟩],
   [⟨0, none, some "A"⟩]⟩

/-- A changelog on which a null target status exercises the index -1
wraparound: the synthetic entry (from = null) matches at index 0, so the
window start is read from the LAST status entry (date 100) and the end from
index 0 (date 0). -/
def nullTarget : Fields ℤ :=
  ⟨[⟨0, none, some "S"⟩, ⟨100, some "S", some "T"⟩],
   [⟨100, some "A", some "B"⟩]⟩

/-- A raw issue whose single recorded change (at 50) predates the recorded
creation timestamp (100): its events are trivially in reverse chronological
order, yet the built timeline is not non-decreasing. -/
def issueBad : Issue ℤ :=
  ⟨"I", 100, "S", none, [⟨50, [⟨"status", "jira", some "X", some "S"⟩]⟩]⟩

/-- A well-formed raw issue: created at 0, one status change at 5. -/
def issueC5 : Issue ℤ :=
  ⟨"I", 0, "S", none, [⟨5, [⟨"status", "jira", some "X", some "S"⟩]⟩]⟩

/-- A well-formed raw issue with one status change and one assignee change. -/
def issueOK : Issue ℤ :=
  ⟨"J", 0, "S", some "A",
   [⟨7, [⟨"assignee", "jira", some "A", some "B"⟩]⟩,
    ⟨5, [⟨"status", "jira", some "X", some "S"⟩]⟩]⟩

/-- A timeline satisfying the Timeline invariant in which two transitions
share a timestamp. -/
def dupTimeline : List (Tr ℤ) :=
  [⟨5, none, some "X"⟩, ⟨5, some "X", some "Y"⟩]

/-- Scenario C of the spec: workloads {I1: {A: 5, B: 10}, I2: {A: 20}}. -/
def scenarioC : List (String × List (Option String × ℤ)) :=
  [("I1", [(some "A", 5), (some "B", 10)]), ("I2", [(some "A", 20)])]

/-- A raw input holding a malformed change-history timestamp (the history's
`created` is unparsable) on an issue that never left the target status "T":
the sweep never parses that timestamp. -/
def respBad : List (Issue (Option ℤ)) :=
  [⟨"I", some 0, "S", none, [⟨none, [⟨"status", "jira", some "X", some "S"⟩]⟩]⟩]

/-- A changelog whose only issue has a target-status window whose exit date is
malformed, so the sweep parses it and fails. -/
def wl9 : List (String × Fields (Option ℤ)) :=
  [("I", ⟨[⟨some 0, none, some "S"⟩, ⟨none, some "T", some "S"⟩], []⟩)]

end JiraMetrics

namespace JiraMetrics

theorem dictLookup_dictSet_self {α β : Type} [DecidableEq α] (k : α) (v : β) :
    ∀ l : List (α × β), dictLookup (dictSet l k v) k = some v
  | [] => by simp [dictSet, dictLookup]
  | (k', v') :: rest => by
    by_cases hk : k' = k
    · simp [dictSet, dictLookup, hk]
    · simp only [dictSet, if_neg hk, dictLookup, if_neg hk]
      exact dictLookup_dictSet_self k v rest

theorem dictLookup_dictSet_ne {α β : Type} [DecidableEq α] {k q : α} (hne : k ≠ q) (v : β) :
    ∀ l : List (α × β), dictLookup (dictSet l k v) q = dictLookup l q
  | [] => by simp [dictSet, dictLookup, hne]
  | (k', v') :: rest => by
    by_cases hk : k' = k
    · subst hk
      simp [dictSet, dictLookup, hne, if_neg (hne ·)]
    · simp only [dictSet, if_neg hk, dictLookup]
      by_cases hq : k' = q
      · simp [hq]
      · simp only [if_neg hq]
        exact dictLookup_dictSet_ne hne v rest

theorem dictSet_mem {α β : Type} [DecidableEq α] {k : α} {v : β} {p : α × β} :
    ∀ {l : List (α × β)}, p ∈ dictSet l k v → p = (k, v) ∨ p ∈ l
  | [], hp => by simpa [dictSet] using hp
  | (k', v') :: rest, hp => by
    by_cases hk : k' = k
    · simp only [dictSet, if_pos hk, List.mem_cons] at hp
      rcases hp with hp | hp
      · exact Or.inl hp
      · exact Or.inr (List.mem_cons_of_mem _ hp)
    · simp only [dictSet, if_neg hk, List.mem_cons] at hp
      rcases hp with hp | hp
      · exact Or.inr (hp ▸ List.mem_cons_self _ _)
      · rcases dictSet_mem hp with h | h
        · exact Or.inl h
        · exact Or.inr (List.mem_cons_of_mem _ h)

theorem targetIdxs_eq_nil {δ : Type} {target : Option String} :
    ∀ {l : List (Tr δ)} {k : ℕ}, (∀ t ∈ l, t.fromVal ≠ target) → targetIdxs target l k = []
  | [], _, _ => rfl
  | s :: rest, k, h => by
    have hs : s.fromVal ≠ target := h s (List.mem_cons_self _ _)
    simp only [targetIdxs, if_neg hs]
    exact targetIdxs_eq_nil (fun t ht => h t (List.mem_cons_of_mem _ ht))

theorem calcIssue_eq_nil {f : Fields ℤ} {target : Option String}
    (h : ∀ t ∈ f.statuses, t.fromVal ≠ target) : calcIssue f target = [] := by
  unfold calcIssue
  rw [targetIdxs_eq_nil h]
  rfl

theorem workload_foldl_lookup_none {target : Option String} {i : String} :
    ∀ (wl : List (String × Fields ℤ)) (per : List (String × List (Option String × ℤ))),
      (∀ p ∈ wl, p.1 = i → calcIssue p.2 target = []) → dictLookup per i = none →
      dictLookup
        (wl.foldl
          (fun per p =>
            if calcIssue p.2 target = [] then per else dictSet per p.1 (calcIssue p.2 target))
          per) i = none
  | [], _, _, hper => hper
  | q :: rest, per, hw, hper => by
    rw [List.foldl_cons]
    refine workload_foldl_lookup_none rest _ (fun p hp => hw p (List.mem_cons_of_mem _ hp)) ?_
    by_cases ha : calcIssue q.2 target = []
    · simpa [ha] using hper
    · have hq : q.1 ≠ i := fun h' => ha (hw q (List.mem_cons_self _ _) h')
      simpa [ha, dictLookup_dictSet_ne hq] using hper

/-- Claim C1 (evaluation of the code at the failing input): the issue
`lostTail` has one completed target-status window [10, 20) of duration 10
seconds, but its only assignee transition (the synthetic one, at creation)
predates the window, so the sweep exhausts the assignee cursor and allocates
nothing: the whole window is lost and the per-assignee allocations sum to 0,
not to end minus start. -/
theorem C1_window_lost :
    calculate_workload [("I", lostTail)] (some "T") = [] := by decide

/-- Claim C2 (evaluation of the code at the failing input): on Scenario A
with t0 = 0, t1 = 10, t1h = 15, t2 = 20 the code credits A with
t1h - t1 = 5 seconds and then exhausts the assignee timeline, so B is never
credited the expected t2 - t1h = 5 seconds for the tail [15, 20). -/
theorem C2_scenarioA :
    calculate_workload [("I", scenarioA)] (some "T") = [("I", [(some "A", 5)])] := by
  decide

/-- Claim C3: an issue whose status timeline has no `from = target` transition
contributes no entry to the result (the result is total, not an error); in
particular Scenario B yields the empty allocation. -/
theorem C3_no_exit_no_entry :
    (∀ (wl : List (String × Fields ℤ)) (target : Option String) (i : String),
        (∀ p ∈ wl, p.1 = i → ∀ t ∈ p.2.statuses, t.fromVal ≠ target) →
        dictLookup (calculate_workload wl target) i = none) ∧
    calculate_workload [("I", scenarioB)] (some "T") = [] := by
  constructor
  · intro wl target i h
    exact workload_foldl_lookup_none wl []
      (fun p hp hpi => calcIssue_eq_nil (h p hp hpi)) rfl
  · decide

/-- Witness for C3 at Scenario B in a two-issue changelog: the Scenario B
issue gets no entry even though another issue does. -/
theorem C3_no_exit_no_entry_witness :
    (∀ p ∈ [("I", scenarioB), ("J", scenarioA)], p.1 = "I" →
        ∀ t ∈ p.2.statuses, t.fromVal ≠ some "T") ∧
    dictLookup (calculate_workload [("I", scenarioB), ("J", scenarioA)] (some "T")) "I"
      = none :=
  ⟨by decide, C3_no_exit_no_entry.1 [("I", scenarioB), ("J", scenarioA)] (some "T") "I"
    (by decide)⟩

/-- Claim C10: with a null target status the synthetic initial status
transition (from = null) matches as an exit at index 0, the window start is
read from index -1 (the LAST status entry, date 100) and the window end from
index 0 (date 0), so the allocation holds the strictly negative value -100. -/
theorem C10_null_target_negative :
    calculate_workload [("I", nullTarget)] none = [("I", [(some "A", -100)])] ∧
    (-100 : ℤ) < 0 := by
  exact ⟨by decide, by decide⟩

theorem buildStatuses_eq_cons {δ : Type} (iss : Issue δ) :
    buildStatuses iss = initialStatus iss :: (statusChanges iss).reverse := by
  unfold buildStatuses
  rw [List.reverse_append]
  rfl

theorem buildAssignees_eq_cons {δ : Type} (iss : Issue δ) :
    buildAssignees iss = initialAssignee iss :: (assigneeChanges iss).reverse := by
  unfold buildAssignees
  rw [List.reverse_append]
  rfl

/-- Counterexample to claim C5: on an issue with one status change the
source's timeline differs from the spec's "prepend the synthetic entry, then
reverse", which would leave the synthetic entry LAST. -/
theorem C5_prepend_reverse_cex : buildStatuses issueC5 ≠ specStatuses issueC5 := by
  decide

/-- Claim C5 (amended): the synthetic entry is APPENDED to the filtered
reverse-chronological event list and the whole sequence is then reversed;
equivalently each output timeline is the synthetic initial transition
followed by the reversed filtered event list. -/
theorem C5_append_then_reverse {δ : Type} (iss : Issue δ) :
    buildStatuses iss = initialStatus iss :: (statusChanges iss).reverse ∧
    buildAssignees iss = initialAssignee iss :: (assigneeChanges iss).reverse :=
  ⟨buildStatuses_eq_cons iss, buildAssignees_eq_cons iss⟩

theorem findLoop_stop {d : ℤ} {incl : Bool} {prev : Option (Tr ℤ)} :
    ∀ {l : List (Tr ℤ)},
      (∀ x ∈ l, ¬(x.date - d < 0 ∨ (incl = true ∧ x.date - d = 0))) →
      findLoop d incl prev l = prev
  | [], _ => rfl
  | x :: rest, h => by
    simp only [findLoop, if_neg (h x (List.mem_cons_self _ _))]

theorem findLoop_strict {t : Tr ℤ} :
    ∀ {l : List (Tr ℤ)} {prev : Option (Tr ℤ)},
      l.Pairwise (fun a b => a.date < b.date) → t ∈ l →
      findLoop t.date true prev l = some t
  | x :: rest, prev, hp, ht => by
    rcases List.pairwise_cons.mp hp with ⟨hx, hrest⟩
    rcases List.mem_cons.mp ht with rfl | ht'
    · simp only [findLoop]
      have hcond : t.date - t.date < 0 ∨ (True ∧ t.date - t.date = 0) :=
        Or.inr ⟨trivial, by ring⟩
      rw [if_pos hcond]
      refine findLoop_stop (fun y hy hc => ?_)
      have hlt : t.date < y.date := hx y hy
      rcases hc with hc | ⟨_, hc⟩ <;> omega
    · simp only [findLoop]
      have hcond : x.date - t.date < 0 ∨ (True ∧ x.date - t.date = 0) :=
        Or.inl (by have := hx t ht'; omega)
      rw [if_pos hcond]
      exact findLoop_strict hrest ht'

/-- Counterexample to claim C6: a timeline satisfying the invariant
(non-empty, non-decreasing, first from = null) in which two transitions share
timestamp 5; looking up the FIRST of them returns the second, not the
transition itself. -/
theorem C6_duplicate_date_cex :
    TimelineOK dupTimeline ∧
    (⟨5, none, some "X"⟩ : Tr ℤ) ∈ dupTimeline ∧
    find_at_time dupTimeline 5 true = some ⟨5, some "X", some "Y"⟩ ∧
    (⟨5, some "X", some "Y"⟩ : Tr ℤ) ≠ ⟨5, none, some "X"⟩ := by
  refine ⟨⟨by decide, by decide⟩, by decide, by decide, by decide⟩

/-- Claim C6 (amended): for timelines with STRICTLY increasing timestamps,
`find_at_time` at a transition's own date with inclusive = true returns that
transition itself; and on any non-empty timeline a query that predates every
transition returns the first transition as a clamped default. -/
theorem C6_lookup :
    (∀ items : List (Tr ℤ), items.Pairwise (fun a b => a.date < b.date) →
        ∀ t ∈ items, find_at_time items t.date true = some t) ∧
    (∀ (items : List (Tr ℤ)) (d : ℤ) (incl : Bool), items ≠ [] →
        (∀ x ∈ items, d < x.date) → find_at_time items d incl = items.head?) := by
  constructor
  · intro items hp t ht
    unfold find_at_time
    rw [findLoop_strict hp ht]
  · intro items d incl hne hd
    unfold find_at_time
    rw [findLoop_stop (fun x hx => ?_)]
    intro hc
    have := hd x hx
    rcases hc with hc | ⟨_, hc⟩ <;> omega

/-- Witness for C6 on a concrete strictly increasing timeline. -/
theorem C6_lookup_witness :
    ([⟨1, none, some "X"⟩, ⟨3, some "X", some "Y"⟩] : List (Tr ℤ)).Pairwise
      (fun a b => a.date < b.date) ∧
    find_at_time [⟨1, none, some "X"⟩, ⟨3, some "X", some "Y"⟩] 3 true
      = some ⟨3, some "X", some "Y"⟩ ∧
    find_at_time [⟨1, none, some "X"⟩, ⟨3, some "X", some "Y"⟩] 0 true
      = ([⟨1, none, some "X"⟩, ⟨3, some "X", some "Y"⟩] : List (Tr ℤ)).head? :=
  ⟨by decide,
   C6_lookup.1 [⟨1, none, some "X"⟩, ⟨3, some "X", some "Y"⟩] (by decide)
     ⟨3, some "X", some "Y"⟩ (by decide),
   C6_lookup.2 [⟨1, none, some "X"⟩, ⟨3, some "X", some "Y"⟩] 0 true (by decide)
     (by decide)⟩

theorem blockDate {δ : Type} (fname : String) (h : History δ) {x : Tr δ}
    (hx : x ∈ h.items.filterMap (fun it =>
      if it.field = fname ∧ it.fieldtype = "jira" then
        some (⟨h.created, it.fromVal, it.toVal⟩ : Tr δ) else none)) :
    x.date = h.created := by
  rw [List.mem_filterMap] at hx
  rcases hx with ⟨it, _, hit⟩
  split at hit
  · cases hit; rfl
  · cases hit

theorem fieldChanges_date {δ : Type} {fname : String} {iss : Issue δ} {t : Tr δ}
    (ht : t ∈ fieldChanges fname iss) : ∃ h ∈ iss.histories, t.date = h.created := by
  unfold fieldChanges at ht
  rw [List.mem_flatten] at ht
  rcases ht with ⟨blk, hblk, htb⟩
  rw [List.mem_map] at hblk
  rcases hblk with ⟨h, hh, rfl⟩
  exact ⟨h, hh, blockDate fname h htb⟩

theorem fieldChanges_revChron {δ : Type} [LinearOrder δ] {fname : String} {iss : Issue δ}
    (hrev : iss.histories.Pairwise (fun a b => b.created ≤ a.created)) :
    (fieldChanges fname iss).Pairwise (fun a b => b.date ≤ a.date) := by
  unfold fieldChanges
  rw [List.pairwise_flatten]
  refine ⟨?_, ?_⟩
  · intro blk hblk
    rw [List.mem_map] at hblk
    rcases hblk with ⟨h, _, rfl⟩
    refine List.pairwise_of_forall_mem_list (fun a ha b hb => ?_)
    rw [blockDate fname h ha, blockDate fname h hb]
  · rw [List.pairwise_map]
    exact hrev.imp (fun {a b} hab x hx y hy => by
      rw [blockDate fname _ hx, blockDate fname _ hy]; exact hab)

theorem build_chron {δ : Type} [LinearOrder δ] {iss : Issue δ} {fname : String}
    (hrev : iss.histories.Pairwise (fun a b => b.created ≤ a.created))
    (hcr : ∀ h ∈ iss.histories, iss.created ≤ h.created)
    (init : Tr δ) (hinit : init.date = iss.created) :
    (init :: (fieldChanges fname iss).reverse).Pairwise (fun a b => a.date ≤ b.date) := by
  rw [List.pairwise_cons]
  constructor
  · intro y hy
    rw [List.mem_reverse] at hy
    rcases fieldChanges_date hy with ⟨h, hh, hyd⟩
    rw [hinit, hyd]
    exact hcr h hh
  · rw [List.pairwise_reverse]
    exact fieldChanges_revChron hrev

/-- Counterexample to claim C4: `issueBad`'s single event is trivially in
reverse chronological order, but its date (50) precedes the issue's creation
timestamp (100), so the built status timeline [100, 50] is not non-decreasing. -/
theorem C4_not_sorted_cex :
    issueBad.histories.Pairwise (fun a b => b.created ≤ a.created) ∧
    ¬ (buildStatuses issueBad).Pairwise (fun a b => a.date ≤ b.date) :=
  ⟨by decide, by decide⟩

/-- Claim C4 (amended): for an issue whose raw change events arrive in reverse
chronological order AND whose creation timestamp does not exceed any event
timestamp, each built timeline is non-empty, non-decreasing by timestamp, and
starts with the synthetic transition (from = null, date = creation). -/
theorem C4_timeline_invariant (iss : Issue ℤ)
    (hrev : iss.histories.Pairwise (fun a b => b.created ≤ a.created))
    (hcr : ∀ h ∈ iss.histories, iss.created ≤ h.created) :
    ((buildStatuses iss).Pairwise (fun a b => a.date ≤ b.date) ∧
      (buildStatuses iss).head? = some (initialStatus iss) ∧
      (initialStatus iss).fromVal = none ∧ (initialStatus iss).date = iss.created) ∧
    ((buildAssignees iss).Pairwise (fun a b => a.date ≤ b.date) ∧
      (buildAssignees iss).head? = some (initialAssignee iss) ∧
      (initialAssignee iss).fromVal = none ∧ (initialAssignee iss).date = iss.created) := by
  refine ⟨⟨?_, ?_, rfl, rfl⟩, ?_, ?_, rfl, rfl⟩
  · rw [buildStatuses_eq_cons]
    exact build_chron hrev hcr _ rfl
  · rw [buildStatuses_eq_cons]
    rfl
  · rw [buildAssignees_eq_cons]
    exact build_chron hrev hcr _ rfl
  · rw [buildAssignees_eq_cons]
    rfl

/-- Witness for C4 on a well-formed issue. -/
theorem C4_timeline_invariant_witness :
    (issueOK.histories.Pairwise (fun a b => b.created ≤ a.created) ∧
      ∀ h ∈ issueOK.histories, issueOK.created ≤ h.created) ∧
    (buildStatuses issueOK).Pairwise (fun a b => a.date ≤ b.date) ∧
    (buildAssignees issueOK).head? = some (initialAssignee issueOK) :=
  ⟨⟨by decide, by decide⟩,
   ((C4_timeline_invariant issueOK (by decide) (by decide)).1).1,
   ((C4_timeline_invariant issueOK (by decide) (by decide)).2).2.1⟩

theorem setdefault0_nonneg {acc : List (Option String × ℤ)} {k : Option String}
    (hacc : ∀ p ∈ acc, 0 ≤ p.2) : ∀ p ∈ setdefault0 acc k, 0 ≤ p.2 := by
  intro p hp
  unfold setdefault0 at hp
  split at hp
  · exact hacc p hp
  · rcases List.mem_append.mp hp with h | h
    · exact hacc p h
    · rw [List.mem_singleton.mp h]

theorem addVal_nonneg {acc : List (Option String × ℤ)} {k : Option String} {d : ℤ}
    (hd : 0 ≤ d) (hacc : ∀ p ∈ acc, 0 ≤ p.2) : ∀ p ∈ addVal acc k d, 0 ≤ p.2 := by
  intro p hp
  unfold addVal at hp
  rw [List.mem_map] at hp
  rcases hp with ⟨q, hq, rfl⟩
  have hq2 := hacc q hq
  split
  · simp only []
    omega
  · exact hq2

theorem sweep_nonneg :
    ∀ (l : List (Tr ℤ)) (start endd : ℤ) (acc : List (Option String × ℤ)),
      start ≤ endd → (∀ p ∈ acc, 0 ≤ p.2) →
      ∀ p ∈ (sweep start endd acc l).1, 0 ≤ p.2
  | [], _, _, _, _, hacc => hacc
  | a :: rest, start, endd, acc, hse, hacc => by
    simp only [sweep]
    by_cases h1 : a.date < start
    · rw [if_pos h1]
      exact sweep_nonneg rest start endd acc hse hacc
    · rw [if_neg h1]
      by_cases h2 : a.date < endd
      · rw [if_pos h2]
        exact sweep_nonneg rest a.date endd _ (le_of_lt h2)
          (addVal_nonneg (by omega) (setdefault0_nonneg hacc))
      · rw [if_neg h2]
        exact addVal_nonneg (by omega) (setdefault0_nonneg hacc)

theorem windows_foldl_nonneg (statuses : List (Tr ℤ)) :
    ∀ (idxs : List ℕ) (st : List (Option String × ℤ) × List (Tr ℤ)),
      (∀ i ∈ idxs, (pyPrev statuses i).date ≤ (pyAt statuses i).date) →
      (∀ p ∈ st.1, 0 ≤ p.2) →
      ∀ p ∈ (idxs.foldl
          (fun st i => sweep (pyPrev statuses i).date (pyAt statuses i).date st.1 st.2)
          st).1, 0 ≤ p.2
  | [], _, _, hst => hst
  | i :: rest, st, hw, hst => by
    rw [List.foldl_cons]
    exact windows_foldl_nonneg statuses rest _
      (fun j hj => hw j (List.mem_cons_of_mem _ hj))
      (sweep_nonneg st.2 _ _ st.1 (hw i (List.mem_cons_self _ _)) hst)

theorem targetIdxs_spec {δ : Type} {target : Option String} :
    ∀ {l : List (Tr δ)} {k i : ℕ}, i ∈ targetIdxs target l k →
      k ≤ i ∧ ∃ t, l.get? (i - k) = some t ∧ t.fromVal = target
  | s :: rest, k, i, hi => by
    simp only [targetIdxs] at hi
    by_cases hs : s.fromVal = target
    · rw [if_pos hs] at hi
      rcases List.mem_cons.mp hi with rfl | hi'
      · refine ⟨le_refl _, s, ?_, hs⟩
        simp
      · rcases targetIdxs_spec hi' with ⟨hk, t, hget, ht⟩
        refine ⟨by omega, t, ?_, ht⟩
        have hik : i - k = (i - (k + 1)) + 1 := by omega
        rw [hik, List.get?_cons_succ]
        exact hget
    · rw [if_neg hs] at hi
      rcases targetIdxs_spec hi with ⟨hk, t, hget, ht⟩
      refine ⟨by omega, t, ?_, ht⟩
      have hik : i - k = (i - (k + 1)) + 1 := by omega
      rw [hik, List.get?_cons_succ]
      exact hget

theorem window_start_le_end {statuses : List (Tr ℤ)} {tgt : String}
    (hchron : statuses.Pairwise (fun a b => a.date ≤ b.date))
    (hhead : statuses.head?.map Tr.fromVal = some none) :
    ∀ i ∈ targetIdxs (some tgt) statuses 0,
      (pyPrev statuses i).date ≤ (pyAt statuses i).date := by
  intro i hi
  rcases targetIdxs_spec hi with ⟨-, t, hget, ht⟩
  rw [Nat.sub_zero] at hget
  have hi0 : i ≠ 0 := by
    rintro rfl
    cases statuses with
    | nil => simp at hget
    | cons x xs =>
      simp only [List.get?] at hget
      simp only [List.head?, Option.map_some'] at hhead
      cases hget
      rw [Option.some_inj.mp hhead] at ht
      cases ht
  have hlen : i < statuses.length := by
    rcases List.get?_eq_some.mp hget with ⟨h, -⟩
    exact h
  have hlen' : i - 1 < statuses.length := by omega
  have e1 : pyPrev statuses i = statuses.get ⟨i - 1, hlen'⟩ := by
    unfold pyPrev
    rw [if_neg hi0, List.get?_eq_get hlen']
    rfl
  have e2 : pyAt statuses i = statuses.get ⟨i, hlen⟩ := by
    unfold pyAt
    rw [List.get?_eq_get hlen]
    rfl
  rw [e1, e2]
  exact List.pairwise_iff_get.mp hchron ⟨i - 1, hlen'⟩ ⟨i, hlen⟩ (Fin.mk_lt_mk.mpr (by omega))

theorem calcIssue_nonneg {f : Fields ℤ} {tgt : String}
    (hchron : f.statuses.Pairwise (fun a b => a.date ≤ b.date))
    (hhead : f.statuses.head?.map Tr.fromVal = some none) :
    ∀ p ∈ calcIssue f (some tgt), 0 ≤ p.2 := by
  unfold calcIssue
  exact windows_foldl_nonneg f.statuses (targetIdxs (some tgt) f.statuses 0)
    ([], f.assignees) (window_start_le_end hchron hhead) (by simp)

theorem workload_foldl_nonneg {tgt : String} :
    ∀ (wl : List (String × Fields ℤ)) (per : List (String × List (Option String × ℤ))),
      (∀ p ∈ wl, TimelineOK p.2.statuses) →
      (∀ e ∈ per, ∀ q ∈ e.2, 0 ≤ q.2) →
      ∀ e ∈ wl.foldl
          (fun per p =>
            if calcIssue p.2 (some tgt) = [] then per
            else dictSet per p.1 (calcIssue p.2 (some tgt)))
          per, ∀ q ∈ e.2, 0 ≤ q.2
  | [], _, _, hper => hper
  | p :: rest, per, hwl, hper => by
    rw [List.foldl_cons]
    refine workload_foldl_nonneg rest _
      (fun q hq => hwl q (List.mem_cons_of_mem _ hq)) ?_
    intro e he q hq
    have he' : e ∈ if calcIssue p.2 (some tgt) = [] then per
        else dictSet per p.1 (calcIssue p.2 (some tgt)) := he
    by_cases ha : calcIssue p.2 (some tgt) = []
    · rw [if_pos ha] at he'
      exact hper e he' q hq
    · rw [if_neg ha] at he'
      rcases dictSet_mem he' with rfl | he''
      · exact calcIssue_nonneg (hwl p (List.mem_cons_self _ _)).1
          (hwl p (List.mem_cons_self _ _)).2 q hq
      · exact hper e he'' q hq

/-- Claim C7: for every changelog whose status and assignee timelines satisfy
the Timeline invariant (non-empty, non-decreasing, first from = null) and
every non-null target status, every duration in the result of
`calculate_workload` is non-negative. -/
theorem C7_workload_nonneg (wl : List (String × Fields ℤ)) (tgt : String)
    (h : ∀ p ∈ wl, TimelineOK p.2.statuses ∧ TimelineOK p.2.assignees) :
    ∀ e ∈ calculate_workload wl (some tgt), ∀ q ∈ e.2, 0 ≤ q.2 := by
  unfold calculate_workload
  exact workload_foldl_nonneg wl [] (fun p hp => (h p hp).1) (by simp)

/-- Witness for C7 on Scenario A. -/
theorem C7_workload_nonneg_witness :
    (∀ p ∈ [("I", scenarioA)], TimelineOK p.2.statuses ∧ TimelineOK p.2.assignees) ∧
    (0 : ℤ) ≤ ((some "A", (5 : ℤ))).2 :=
  ⟨by decide,
   C7_workload_nonneg [("I", scenarioA)] "T" (by decide)
     ("I", [(some "A", 5)]) (by decide) (some "A", 5) (by decide)⟩

theorem leadAux_mem :
    ∀ (l : List (Option String × ℤ)) (b : Option String × ℤ),
      l.foldl (fun best y => if best.2 < y.2 then y else best) b ∈ b :: l
  | [], _ => List.mem_cons_self _ _
  | y :: rest, b => by
    rw [List.foldl_cons]
    rcases List.mem_cons.mp (leadAux_mem rest (if b.2 < y.2 then y else b)) with h | h
    · rw [h]
      split
      · exact List.mem_cons_of_mem _ (List.mem_cons_self _ _)
      · exact List.mem_cons_self _ _
    · exact List.mem_cons_of_mem _ (List.mem_cons_of_mem _ h)

theorem leadAux_max :
    ∀ (l : List (Option String × ℤ)) (b : Option String × ℤ),
      b.2 ≤ (l.foldl (fun best y => if best.2 < y.2 then y else best) b).2 ∧
      ∀ y ∈ l, y.2 ≤ (l.foldl (fun best y => if best.2 < y.2 then y else best) b).2
  | [], _ => ⟨le_refl _, by simp⟩
  | y :: rest, b => by
    rw [List.foldl_cons]
    rcases leadAux_max rest (if b.2 < y.2 then y else b) with ⟨hb', hrest⟩
    have hby : b.2 ≤ (if b.2 < y.2 then y else b).2 ∧
        y.2 ≤ (if b.2 < y.2 then y else b).2 := by
      split <;> constructor <;> omega
    refine ⟨le_trans hby.1 hb', fun z hz => ?_⟩
    rcases List.mem_cons.mp hz with rfl | hz'
    · exact le_trans hby.2 hb'
    · exact hrest z hz'

theorem leadOf_mem {s : List (Option String × ℤ)} (hs : s ≠ []) : leadOf s ∈ s := by
  cases s with
  | nil => exact absurd rfl hs
  | cons x xs =>
    simp only [leadOf]
    exact leadAux_mem xs x

theorem leadOf_max {s : List (Option String × ℤ)} : ∀ p ∈ s, p.2 ≤ (leadOf s).2 := by
  cases s with
  | nil => simp
  | cons x xs =>
    intro p hp
    simp only [leadOf]
    rcases List.mem_cons.mp hp with rfl | hp'
    · exact (leadAux_max xs p).1
    · exact (leadAux_max xs x).2 p hp'

theorem findEntries_setLead_ne {i j : String} (hne : j ≠ i) (l : Option String) (v : ℤ) :
    ∀ per : List (Option String × List (String × ℤ)),
      findEntries (setLead per l j v) i = findEntries per i
  | [] => by
    simp [setLead, findEntries, dictLookup, hne]
  | (l', m) :: rest => by
    by_cases hl : l' = l
    · simp only [setLead, if_pos hl, findEntries, dictLookup_dictSet_ne hne]
    · simp only [setLead, if_neg hl]
      cases hm : dictLookup m i <;>
        simp [findEntries, hm, findEntries_setLead_ne hne l v rest]

theorem findEntries_setLead_self {i : String} (l : Option String) (v : ℤ) :
    ∀ per : List (Option String × List (String × ℤ)),
      findEntries per i = [] →
      findEntries (setLead per l i v) i = [(l, v)]
  | [], _ => by
    simp [setLead, findEntries, dictLookup]
  | (l', m) :: rest, h => by
    have hm : dictLookup m i = none ∧ findEntries rest i = [] := by
      revert h
      cases hm : dictLookup m i <;> simp [findEntries, hm]
    by_cases hl : l' = l
    · simp [setLead, if_pos hl, findEntries, dictLookup_dictSet_self, hm.2, hl]
    · simp [setLead, if_neg hl, findEntries, hm.1,
        findEntries_setLead_self l v rest hm.2]

theorem group_foldl_skip {i : String} :
    ∀ (wls : List (String × List (Option String × ℤ)))
      (per : List (Option String × List (String × ℤ))),
      (∀ p ∈ wls, p.1 ≠ i) →
      findEntries (wls.foldl
        (fun per p =>
          if p.2 = [] then per else setLead per (leadOf p.2).1 p.1 (leadOf p.2).2)
        per) i = findEntries per i
  | [], _, _ => rfl
  | q :: rest, per, h => by
    rw [List.foldl_cons]
    rw [group_foldl_skip rest _ (fun p hp => h p (List.mem_cons_of_mem _ hp))]
    by_cases hq : q.2 = []
    · rw [if_pos hq]
    · rw [if_neg hq]
      exact findEntries_setLead_ne (h q (List.mem_cons_self _ _)) _ _ per

theorem group_foldl_main {i : String} {s : List (Option String × ℤ)} :
    ∀ (wls : List (String × List (Option String × ℤ)))
      (per : List (Option String × List (String × ℤ))),
      (i, s) ∈ wls → (wls.map Prod.fst).Nodup →
      findEntries per i = [] →
      findEntries (wls.foldl
        (fun per p =>
          if p.2 = [] then per else setLead per (leadOf p.2).1 p.1 (leadOf p.2).2)
        per) i = if s = [] then [] else [leadOf s]
  | [], _, hmem, _, _ => absurd hmem (List.not_mem_nil _)
  | q :: rest, per, hmem, hnd, hper => by
    rw [List.foldl_cons]
    rw [List.map_cons, List.nodup_cons] at hnd
    rcases List.mem_cons.mp hmem with heq | hmem'
    · rcases heq.symm ▸ hnd with hnd'
      have hq : q = (i, s) := heq.symm
      subst hq
      have hrest : ∀ p ∈ rest, p.1 ≠ i := by
        intro p hp hpi
        have hmem2 : i ∈ rest.map Prod.fst := by
          rw [← hpi]
          exact List.mem_map_of_mem Prod.fst hp
        exact hnd.1 hmem2
      rw [group_foldl_skip rest _ hrest]
      by_cases hs : s = []
      · rw [if_pos hs, if_pos hs]
        exact hper
      · rw [if_neg hs, if_neg hs]
        simpa using findEntries_setLead_self (leadOf s).1 (leadOf s).2 per hper
    · have hq1 : q.1 ≠ i := fun hqi =>
        hnd.1 (by rw [hqi]; exact List.mem_map_of_mem Prod.fst hmem')
      refine group_foldl_main rest _ hmem' hnd.2 ?_
      by_cases hq : q.2 = []
      · rw [if_pos hq]
        exact hper
      · rw [if_neg hq]
        rw [findEntries_setLead_ne hq1 _ _ per]
        exact hper

/-- Claim C8: for every per-issue allocation mapping with distinct issue keys,
each issue with a non-empty allocation is recorded in exactly one entry
{lead: {issue: score}} of the LeadGroup, where the (lead, score) pair is a
member of the issue's allocation attaining the maximal score; issues with an
empty allocation are recorded nowhere; and Scenario C evaluates to
{B: {I1: 10}, A: {I2: 20}}. -/
theorem C8_lead_grouping :
    (∀ wls : List (String × List (Option String × ℤ)),
        (wls.map Prod.fst).Nodup →
        ∀ i s, (i, s) ∈ wls →
          (s ≠ [] →
            findEntries (group_by_lead wls) i = [leadOf s] ∧
            leadOf s ∈ s ∧ ∀ p ∈ s, p.2 ≤ (leadOf s).2) ∧
          (s = [] → findEntries (group_by_lead wls) i = [])) ∧
    group_by_lead scenarioC = [(some "B", [("I1", 10)]), (some "A", [("I2", 20)])] := by
  constructor
  · intro wls hnd i s hmem
    have hmain := group_foldl_main wls [] hmem hnd rfl
    constructor
    · intro hs
      refine ⟨?_, leadOf_mem hs, leadOf_max⟩
      unfold group_by_lead
      rw [hmain, if_neg hs]
    · intro hs
      unfold group_by_lead
      rw [hmain, if_pos hs]
  · decide

/-- Witness for C8 on Scenario C: issue I1's unique entry is (B, 10). -/
theorem C8_lead_grouping_witness :
    (scenarioC.map Prod.fst).Nodup ∧
    findEntries (group_by_lead scenarioC) "I1" = [(some "B", (10 : ℤ))] :=
  ⟨by decide,
   ((C8_lead_grouping.1 scenarioC (by decide) "I1" [(some "A", 5), (some "B", 10)]
      (by decide)).1 (by decide)).1⟩

theorem workloadE_foldl_error {target : Option String} :
    ∀ wl : List (String × Fields (Option ℤ)),
      wl.foldl
        (fun eper p => do
          let per ← eper
          let a ← calcIssueE p.2 target
          if a = [] then pure per else pure (dictSet per p.1 a))
        (.error ()) = .error ()
  | [] => rfl
  | q :: rest => by
    rw [List.foldl_cons]
    have hstep : (do
        let per ← (Except.error () : Except Unit (List (String × List (Option String × ℤ))))
        let a ← calcIssueE q.2 target
        if a = [] then pure per else pure (dictSet per q.1 a)) = Except.error () := rfl
    rw [hstep]
    exact workloadE_foldl_error rest

theorem workloadE_foldl_exists {target : Option String} :
    ∀ (wl : List (String × Fields (Option ℤ)))
      (acc : Except Unit (List (String × List (Option String × ℤ)))),
      (∃ p ∈ wl, calcIssueE p.2 target = .error ()) →
      wl.foldl
        (fun eper p => do
          let per ← eper
          let a ← calcIssueE p.2 target
          if a = [] then pure per else pure (dictSet per p.1 a))
        acc = .error ()
  | [], _, h => absurd h (by simp)
  | q :: rest, acc, h => by
    rw [List.foldl_cons]
    rcases h with ⟨p, hp, herr⟩
    rcases List.mem_cons.mp hp with rfl | hp'
    · have hstep : (do
          let per ← acc
          let a ← calcIssueE p.2 target
          if a = [] then pure per else pure (dictSet per p.1 a)) = Except.error () := by
        cases acc with
        | error e => rfl
        | ok v =>
          simp only [herr]
          rfl
      rw [hstep]
      exact workloadE_foldl_error rest
    · exact workloadE_foldl_exists rest _ ⟨p, hp', herr⟩

/-- Counterexample to claim C9: `respBad` contains a change-history timestamp
that cannot be parsed, yet `build_changelog` followed by `calculate_workload`
succeeds with a result, because the malformed timestamp belongs to an issue
with no target-status window and is never handed to `strptime`. -/
theorem C9_unvisited_not_signalled :
    hasMalformed respBad = true ∧ coreE respBad (some "T") = .ok [] := ⟨rfl, rfl⟩

/-- Claim C9 (amended): a malformed change-history timestamp is fatal exactly
when the computation parses it: if processing any issue of the changelog
fails on a timestamp it visits, the failure propagates out of
`calculate_workload` to the caller rather than being skipped. -/
theorem C9_error_propagates (wl : List (String × Fields (Option ℤ)))
    (target : Option String)
    (h : ∃ p ∈ wl, calcIssueE p.2 target = .error ()) :
    calculate_workloadE wl target = .error () := by
  unfold calculate_workloadE
  exact workloadE_foldl_exists wl (.ok []) h

/-- Witness for C9 at a changelog whose only window has a malformed exit
timestamp. -/
theorem C9_error_propagates_witness :
    calculate_workloadE wl9 (some "T") = .error () :=
  C9_error_propagates wl9 (some "T")
    ⟨("I", ⟨[⟨some 0, none, some "S"⟩, ⟨none, some "T", some "S"⟩], []⟩),
     by decide, rfl⟩

end JiraMetrics
